import Mathlib

/-!
Verification of `export_folder_structure.py`: a tool that renders a
directory hierarchy as a connector-drawn text tree and writes it to a file.

The filesystem is modelled as a static tree of entries.  A directory carries
a `readable` flag: `readable = false` means `iterdir()` raises
`PermissionError` when the directory's contents are listed.  An entry that is
neither a directory nor a regular file (broken symlink, socket, device node)
is modelled by the `other` constructor: Python's `is_dir()` and `is_file()`
both return `False` on it.
-/

namespace ExportFolderStructure

inductive Entry : Type where
  | dir (name : String) (readable : Bool) (children : List Entry)
  | file (name : String)
  | other (name : String)

def Entry.name : Entry → String
  | .dir n _ _ => n
  | .file n => n
  | .other n => n

/-- `item.is_dir()` in the source. -/
def Entry.isDir : Entry → Bool
  | .dir _ _ _ => true
  | _ => false

/-- `item.is_file()` in the source. -/
def Entry.isFile : Entry → Bool
  | .file _ => true
  | _ => false

/-- Tree-drawing tokens of `generate_tree` (source lines 50-52). -/
def space : String := "    "

def branch : String := "├── "

def last_branch : String := "└── "

/-- Continuation token used for the extended recursion pre-string
(source line 79). -/
def contToken : String := "│   "

/-- Text printed when `iterdir()` raises `PermissionError` (source line 58),
without the pre-string and connector. -/
def permDeniedText : String := "⚠️  [Permission Denied]"

/-- The filter of source lines 62-67: an item is kept iff it is a directory
whose name is not in `ignore_dirs`, or a file whose name is not in
`ignore_files`. -/
def keepEntry (ignore_dirs ignore_files : List String) (item : Entry) : Bool :=
  (item.isDir && !(ignore_dirs.contains item.name)) ||
  (item.isFile && !(ignore_files.contains item.name))

def charLT (a b : Char) : Bool := decide (a.toNat < b.toNat)

/-- Code-point lexicographic order on character sequences: how Python
compares two strings. -/
def charListLT : List Char → List Char → Bool
  | [], [] => false
  | [], _ :: _ => true
  | _ :: _, [] => false
  | a :: as, b :: bs =>
    if charLT a b then true
    else if charLT b a then false
    else charListLT as bs

def charListLE (l1 l2 : List Char) : Bool := !charListLT l2 l1

/-- `name.lower()` as a character sequence.  `Char.toLower` lowercases the
ASCII range, which is where this model and Python's `str.lower` agree. -/
def lowerData (s : String) : List Char := s.data.map Char.toLower

/-- The sort key of source line 69: `(x.is_file(), x.name.lower())`. -/
def entryKey (x : Entry) : Bool × List Char := (x.isFile, lowerData x.name)

/-- Strict lexicographic order on sort keys: Python tuple comparison with
`False < True` on booleans and code-point lexicographic order on the
lowercased names. -/
def keyLT : Bool × List Char → Bool × List Char → Bool
  | (f1, s1), (f2, s2) => (!f1 && f2) || (f1 == f2 && charListLT s1 s2)

/-- Non-strict lexicographic order on sort keys. -/
def keyLE : Bool × List Char → Bool × List Char → Bool
  | (f1, s1), (f2, s2) => (!f1 && f2) || (f1 == f2 && charListLE s1 s2)

def entryLT (a b : Entry) : Bool := keyLT (entryKey a) (entryKey b)

def entryLE (a b : Entry) : Bool := keyLE (entryKey a) (entryKey b)

/-- Stable insertion used by `sortEntries`: `e` is placed after exactly the
already-sorted elements strictly below it, so that elements with equal keys
keep their original relative order, as Python's stable `list.sort` does. -/
def insertSorted (e : Entry) : List Entry → List Entry
  | [] => [e]
  | x :: xs => if entryLT x e then x :: insertSorted e xs else e :: x :: xs

/-- Model of `items.sort(key=lambda x: (x.is_file(), x.name.lower()))`
(source line 69).  Python's `list.sort` is stable; a stable sort's output is
uniquely determined by the key order and the input order, so this stable
insertion sort computes the same list. -/
def sortEntries : List Entry → List Entry
  | [] => []
  | a :: l => insertSorted a (sortEntries l)

theorem sizeOf_insertSorted (e : Entry) (l : List Entry) :
    sizeOf (insertSorted e l) = 1 + sizeOf e + sizeOf l := by
  induction l with
  | nil => simp [insertSorted]
  | cons x xs ih =>
      simp only [insertSorted]
      split <;> (simp only [List.cons.sizeOf_spec, ih]; try omega)

theorem sizeOf_sortEntries (l : List Entry) :
    sizeOf (sortEntries l) = sizeOf l := by
  induction l with
  | nil => rfl
  | cons a l ih =>
      simp only [sortEntries, sizeOf_insertSorted, ih, List.cons.sizeOf_spec]

theorem sizeOf_filter_le (p : Entry → Bool) (l : List Entry) :
    sizeOf (l.filter p) ≤ sizeOf l := by
  induction l with
  | nil => simp
  | cons a l ih =>
      simp only [List.filter_cons]
      split <;> (simp only [List.cons.sizeOf_spec]; omega)

theorem sizeOf_sortFilter_lt (igD igF : List String) (n : String) (r : Bool)
    (cs rest : List Entry) :
    sizeOf (sortEntries (cs.filter (keepEntry igD igF))) <
      sizeOf (Entry.dir n r cs :: rest) := by
  have h := sizeOf_filter_le (keepEntry igD igF) cs
  simp only [sizeOf_sortEntries, List.cons.sizeOf_spec, Entry.dir.sizeOf_spec]
  omega

/-- The loop of source lines 72-82, fused with the body of the recursive call
`generate_tree(item, ...)` for sub-directories (source lines 55-59 for the
`PermissionError` handler, line 80 for the recursion).  `items` is the
already filtered and sorted sibling list; `pre` is the accumulated
pre-string.  `is_current_last` is `i == len(items) - 1`, i.e. the rest of the
list is empty.  An `other` entry falls into the `else` branch of line 76
exactly as in Python, where `item.is_dir()` is false. -/
def renderItems (ignore_dirs ignore_files : List String) :
    String → List Entry → List String
  | _, [] => []
  | pre, e :: rest =>
    let is_current_last := rest.isEmpty
    let connector := if is_current_last then last_branch else branch
    match e with
    | .dir n r cs =>
        (pre ++ connector ++ "📂 " ++ n ++ "/") ::
          ((if r then
              renderItems ignore_dirs ignore_files
                (pre ++ (if is_current_last then space else contToken))
                (sortEntries (cs.filter (keepEntry ignore_dirs ignore_files)))
            else
              [(pre ++ (if is_current_last then space else contToken)) ++
                branch ++ permDeniedText]) ++
            renderItems ignore_dirs ignore_files pre rest)
    | .file n => (pre ++ connector ++ "📄 " ++ n) ::
        renderItems ignore_dirs ignore_files pre rest
    | .other n => (pre ++ connector ++ "📄 " ++ n) ::
        renderItems ignore_dirs ignore_files pre rest
termination_by _ l => sizeOf l
decreasing_by
  all_goals first
    | apply sizeOf_sortFilter_lt
    | (simp only [List.cons.sizeOf_spec]; omega)

/-- `generate_tree(dir_path, ignore_dirs, ignore_files, pre, is_last)`
(source lines 30-82) called on a directory whose listed contents are
`children` when `readable`, and whose listing raises `PermissionError`
otherwise.  The `is_last` parameter of the source is unused by the body and
omitted. -/
def generate_tree (ignore_dirs ignore_files : List String) (readable : Bool)
    (children : List Entry) (pre : String) : List String :=
  if readable then
    renderItems ignore_dirs ignore_files pre
      (sortEntries (children.filter (keepEntry ignore_dirs ignore_files)))
  else
    [pre ++ branch ++ permDeniedText]

/-- `DEFAULT_IGNORE_DIRS` (source lines 16-24); a Python set, modelled by a
list compared by membership. -/
def DEFAULT_IGNORE_DIRS : List String :=
  ["__pycache__", ".git", ".vscode", "node_modules", "venv", ".venv", ".idea"]

/-- `DEFAULT_IGNORE_FILES` (source lines 25-28). -/
def DEFAULT_IGNORE_FILES : List String := [".DS_Store", ".gitignore"]

/-- Parsed command-line arguments other than the start path
(source lines 106-129). -/
structure Args where
  output_file : String := "folder_structure.txt"
  ignore_dir : List String := []
  ignore_file : List String := []

/-- What the filesystem holds at the start path: either not an existing
directory (`Path.is_dir()` is false, covering both a missing path and a
non-directory), or a directory with its resolved name, readability and
listed children. -/
inductive StartPath where
  | notDir (display : String)
  | isDir (resolvedName : String) (readable : Bool) (children : List Entry)

/-- Observable outcome of one run of `main`: the output file written (path
and full contents), if any, and the messages printed to the console. -/
structure RunResult where
  written : Option (String × String)
  console : List String

def joinLines (lines : List String) : String :=
  String.join (lines.map (fun l => l ++ "\n"))

/-- `main()` (source lines 85-159).  On an invalid start path it prints an
error and returns before the output file is opened (lines 134-136).
Otherwise it unions the default ignore sets with the command-line ones
(lines 139-140; list append has the same membership), writes the root line,
a blank line and the tree body to the output file (lines 146-154), and
prints the confirmation (line 159). -/
def main (start_path : StartPath) (args : Args) : RunResult :=
  match start_path with
  | .notDir p =>
      { written := none
        console := ["❌ Error: The path " ++ "'" ++ p ++ "'" ++
          " is not a valid directory."] }
  | .isDir name readable children =>
      let final_ignore_dirs := DEFAULT_IGNORE_DIRS ++ args.ignore_dir
      let final_ignore_files := DEFAULT_IGNORE_FILES ++ args.ignore_file
      let contents :=
        "📁 " ++ name ++ "/\n\n" ++
        joinLines (generate_tree final_ignore_dirs final_ignore_files
          readable children "")
      { written := some (args.output_file, contents)
        console := ["✅ Folder structure successfully exported to " ++ "'" ++
          args.output_file ++ "'"] }

theorem renderItems_nil (igD igF : List String) (pre : String) :
    renderItems igD igF pre [] = [] := by
  rw [renderItems]

theorem renderItems_dir (igD igF : List String) (pre : String) (n : String)
    (r : Bool) (cs rest : List Entry) :
    renderItems igD igF pre (.dir n r cs :: rest) =
      (pre ++ (if rest.isEmpty then last_branch else branch) ++ "📂 " ++ n ++
          "/") ::
        ((if r then
            renderItems igD igF
              (pre ++ (if rest.isEmpty then space else contToken))
              (sortEntries (cs.filter (keepEntry igD igF)))
          else
            [(pre ++ (if rest.isEmpty then space else contToken)) ++
              branch ++ permDeniedText]) ++
          renderItems igD igF pre rest) := by
  rw [renderItems]

theorem renderItems_file (igD igF : List String) (pre : String) (n : String)
    (rest : List Entry) :
    renderItems igD igF pre (.file n :: rest) =
      (pre ++ (if rest.isEmpty then last_branch else branch) ++ "📄 " ++ n) ::
        renderItems igD igF pre rest := by
  rw [renderItems]

theorem renderItems_other (igD igF : List String) (pre : String) (n : String)
    (rest : List Entry) :
    renderItems igD igF pre (.other n :: rest) =
      (pre ++ (if rest.isEmpty then last_branch else branch) ++ "📄 " ++ n) ::
        renderItems igD igF pre rest := by
  rw [renderItems]

theorem charLT_iff {a b : Char} : charLT a b = true ↔ a.toNat < b.toNat := by
  simp [charLT]

theorem charLT_eq_false_iff {a b : Char} :
    charLT a b = false ↔ ¬a.toNat < b.toNat := by
  simp [charLT]

theorem char_eq_of_toNat_eq {a b : Char} (h : a.toNat = b.toNat) : a = b :=
  Char.eq_of_val_eq (UInt32.ext h)

theorem charLT_cases (a b : Char) :
    charLT a b = true ∨ charLT b a = true ∨ a = b := by
  by_cases h1 : a.toNat < b.toNat
  · exact Or.inl (charLT_iff.mpr h1)
  · by_cases h2 : b.toNat < a.toNat
    · exact Or.inr (Or.inl (charLT_iff.mpr h2))
    · exact Or.inr (Or.inr (char_eq_of_toNat_eq (by omega)))

theorem charListLT_irrefl : ∀ l : List Char, charListLT l l = false
  | [] => rfl
  | a :: as => by
      have h : charLT a a = false := charLT_eq_false_iff.mpr (by omega)
      simp [charListLT, h, charListLT_irrefl as]

theorem charListLT_trans :
    ∀ l1 l2 l3 : List Char, charListLT l1 l2 = true →
      charListLT l2 l3 = true → charListLT l1 l3 = true
  | l1, [], _, h1, _ => by cases l1 <;> simp [charListLT] at h1
  | _, _ :: _, [], _, h2 => by simp [charListLT] at h2
  | [], b :: bs, c :: cs, _, _ => by simp [charListLT]
  | a :: as, b :: bs, c :: cs, h1, h2 => by
      simp only [charListLT] at h1 h2 ⊢
      rcases charLT_cases a b with hab | hba | hEq
      · rcases charLT_cases b c with hbc | hcb | hEq2
        · have hac : charLT a c = true :=
            charLT_iff.mpr (Nat.lt_trans (charLT_iff.mp hab) (charLT_iff.mp hbc))
          simp [hac]
        · rw [if_neg (by simp [charLT_eq_false_iff, Nat.not_lt,
            Nat.le_of_lt (charLT_iff.mp hcb)]), if_pos hcb] at h2
          exact absurd h2 (by simp)
        · subst hEq2; simp [hab]
      · rw [if_neg (by simp [charLT_eq_false_iff, Nat.not_lt,
          Nat.le_of_lt (charLT_iff.mp hba)]), if_pos hba] at h1
        exact absurd h1 (by simp)
      · subst hEq
        rw [if_neg (by simp [charLT_eq_false_iff]), if_neg
          (by simp [charLT_eq_false_iff])] at h1
        rcases charLT_cases a c with hac | hca | hEq2
        · simp [hac]
        · rw [if_neg (by simp [charLT_eq_false_iff, Nat.not_lt,
            Nat.le_of_lt (charLT_iff.mp hca)]), if_pos hca] at h2
          exact absurd h2 (by simp)
        · subst hEq2
          rw [if_neg (by simp [charLT_eq_false_iff]), if_neg
            (by simp [charLT_eq_false_iff])] at h2 ⊢
          exact charListLT_trans as bs cs h1 h2

theorem charListLT_antisymm :
    ∀ l1 l2 : List Char, charListLT l1 l2 = false →
      charListLT l2 l1 = false → l1 = l2
  | [], [], _, _ => rfl
  | [], _ :: _, h1, _ => by simp [charListLT] at h1
  | _ :: _, [], _, h2 => by simp [charListLT] at h2
  | a :: as, b :: bs, h1, h2 => by
      simp only [charListLT] at h1 h2
      rcases charLT_cases a b with hab | hba | hEq
      · rw [if_pos hab] at h1; exact absurd h1 (by simp)
      · rw [if_pos hba] at h2; exact absurd h2 (by simp)
      · subst hEq
        rw [if_neg (by simp [charLT_eq_false_iff]), if_neg
          (by simp [charLT_eq_false_iff])] at h1 h2
        rw [charListLT_antisymm as bs h1 h2]

theorem charListLT_asymm {l1 l2 : List Char} (h : charListLT l1 l2 = true) :
    charListLT l2 l1 = false := by
  by_contra hc
  have h2 : charListLT l2 l1 = true := by
    cases hval : charListLT l2 l1
    · exact absurd hval hc
    · rfl
  have := charListLT_trans l1 l2 l1 h h2
  rw [charListLT_irrefl l1] at this
  exact absurd this (by simp)

theorem keyLE_eq_not_keyLT (k1 k2 : Bool × List Char) :
    keyLE k1 k2 = !keyLT k2 k1 := by
  rcases k1 with ⟨f1, s1⟩; rcases k2 with ⟨f2, s2⟩
  cases f1 <;> cases f2 <;> simp [keyLE, keyLT, charListLE]

theorem keyLT_trans {k1 k2 k3 : Bool × List Char} (h1 : keyLT k1 k2 = true)
    (h2 : keyLT k2 k3 = true) : keyLT k1 k3 = true := by
  rcases k1 with ⟨f1, s1⟩; rcases k2 with ⟨f2, s2⟩; rcases k3 with ⟨f3, s3⟩
  cases f1 <;> cases f2 <;> cases f3 <;> simp_all [keyLT]
  all_goals exact charListLT_trans _ _ _ h1 h2

theorem keyLT_asymm {k1 k2 : Bool × List Char} (h : keyLT k1 k2 = true) :
    keyLT k2 k1 = false := by
  rcases k1 with ⟨f1, s1⟩; rcases k2 with ⟨f2, s2⟩
  cases f1 <;> cases f2 <;> simp_all [keyLT]
  all_goals exact charListLT_asymm h

theorem keyLT_antisymm {k1 k2 : Bool × List Char} (h1 : keyLT k1 k2 = false)
    (h2 : keyLT k2 k1 = false) : k1 = k2 := by
  rcases k1 with ⟨f1, s1⟩; rcases k2 with ⟨f2, s2⟩
  cases f1 <;> cases f2 <;> simp_all [keyLT]
  all_goals exact charListLT_antisymm _ _ h1 h2

theorem keyLT_trichotomy (k1 k2 : Bool × List Char) :
    keyLT k1 k2 = true ∨ keyLT k2 k1 = true ∨ k1 = k2 := by
  cases h1 : keyLT k1 k2
  · cases h2 : keyLT k2 k1
    · exact Or.inr (Or.inr (keyLT_antisymm h1 h2))
    · exact Or.inr (Or.inl rfl)
  · exact Or.inl rfl

theorem keyLT_flip_trans {ka kb kc : Bool × List Char}
    (h1 : keyLT kb ka = false) (h2 : keyLT kc kb = false) :
    keyLT kc ka = false := by
  cases hval : keyLT kc ka
  · rfl
  · exfalso
    rcases keyLT_trichotomy ka kb with h | h | h
    · exact absurd (keyLT_trans hval h) (by simp [h2])
    · exact absurd h (by simp [h1])
    · subst h; exact absurd hval (by simp [h2])

theorem entryLE_eq_not_entryLT (a b : Entry) : entryLE a b = !entryLT b a := by
  simp only [entryLE, entryLT, keyLE_eq_not_keyLT]

theorem entryLE_of_entryLT {a b : Entry} (h : entryLT a b = true) :
    entryLE a b = true := by
  rw [entryLE_eq_not_entryLT]
  simp only [entryLT] at h ⊢
  rw [keyLT_asymm h]; rfl

theorem entryLE_of_not_entryLT {a b : Entry} (h : ¬entryLT b a = true) :
    entryLE a b = true := by
  rw [entryLE_eq_not_entryLT, Bool.eq_false_iff.mpr h]; rfl

theorem entryLE_trans {a b c : Entry} (h1 : entryLE a b = true)
    (h2 : entryLE b c = true) : entryLE a c = true := by
  rw [entryLE_eq_not_entryLT] at h1 h2 ⊢
  rw [Bool.not_eq_true'] at h1 h2 ⊢
  simp only [entryLT] at h1 h2 ⊢
  exact keyLT_flip_trans h1 h2

theorem entryKey_eq_of_entryLE {a b : Entry} (h1 : entryLE a b = true)
    (h2 : entryLE b a = true) : entryKey a = entryKey b := by
  rw [entryLE_eq_not_entryLT, Bool.not_eq_true'] at h1 h2
  simp only [entryLT] at h1 h2
  exact keyLT_antisymm h2 h1

theorem insertSorted_perm (e : Entry) :
    ∀ l : List Entry, (insertSorted e l).Perm (e :: l)
  | [] => List.Perm.refl _
  | x :: xs => by
      simp only [insertSorted]
      split
      · exact ((insertSorted_perm e xs).cons x).trans (List.Perm.swap e x xs)
      · exact List.Perm.refl _

theorem sortEntries_perm : ∀ l : List Entry, (sortEntries l).Perm l
  | [] => List.Perm.refl _
  | a :: l =>
      (insertSorted_perm a (sortEntries l)).trans ((sortEntries_perm l).cons a)

/-- Sortedness of a sibling list in the emitted order. -/
def EntriesSorted (l : List Entry) : Prop :=
  l.Pairwise (fun a b => entryLE a b = true)

theorem sorted_insertSorted {e : Entry} :
    ∀ {l : List Entry}, EntriesSorted l → EntriesSorted (insertSorted e l)
  | [], _ => by simp [insertSorted, EntriesSorted]
  | x :: xs, h => by
      rcases (List.pairwise_cons.mp h) with ⟨hx, hxs⟩
      simp only [insertSorted]
      split
      · rename_i hlt
        refine List.pairwise_cons.mpr ⟨?_, sorted_insertSorted hxs⟩
        intro y hy
        rcases List.mem_cons.mp ((insertSorted_perm e xs).mem_iff.mp hy) with
          hye | hyxs
        · subst hye; exact entryLE_of_entryLT hlt
        · exact hx y hyxs
      · rename_i hnlt
        refine List.pairwise_cons.mpr ⟨?_, h⟩
        intro y hy
        rcases List.mem_cons.mp hy with hyx | hyxs
        · subst hyx; exact entryLE_of_not_entryLT hnlt
        · exact entryLE_trans (entryLE_of_not_entryLT hnlt) (hx y hyxs)

theorem sorted_sortEntries : ∀ l : List Entry, EntriesSorted (sortEntries l)
  | [] => List.Pairwise.nil
  | _ :: l => sorted_insertSorted (sorted_sortEntries l)

/-- Two mutually permuted lists that are both sorted and whose sort keys are
pairwise distinct are equal: the sorted order is then unique. -/
theorem eq_of_perm_of_sorted_of_nodupKeys :
    ∀ l1 l2 : List Entry, l1.Perm l2 → EntriesSorted l1 → EntriesSorted l2 →
      (l1.map entryKey).Nodup → l1 = l2
  | [], l2, h, _, _, _ => (h.symm.eq_nil).symm
  | a :: t1, [], h, _, _, _ => h.eq_nil
  | a :: t1, b :: t2, h, s1, s2, nd => by
      have hab : a = b := by
        by_contra hne
        have hbt1 : b ∈ t1 := by
          rcases List.mem_cons.mp (h.mem_iff.mpr (List.mem_cons_self b t2))
            with h' | h'
          · exact absurd h'.symm hne
          · exact h'
        have hat2 : a ∈ t2 := by
          rcases List.mem_cons.mp (h.mem_iff.mp (List.mem_cons_self a t1))
            with h' | h'
          · exact absurd h' hne
          · exact h'
        have hle1 : entryLE a b = true := (List.pairwise_cons.mp s1).1 b hbt1
        have hle2 : entryLE b a = true := (List.pairwise_cons.mp s2).1 a hat2
        have hk : entryKey a = entryKey b := entryKey_eq_of_entryLE hle1 hle2
        have hnk : entryKey a ∉ t1.map entryKey := by
          have := nd
          rw [List.map_cons, List.nodup_cons] at this
          exact this.1
        exact hnk (hk ▸ List.mem_map_of_mem entryKey hbt1)
      subst hab
      have ht : t1 = t2 :=
        eq_of_perm_of_sorted_of_nodupKeys t1 t2 h.cons_inv
          (List.pairwise_cons.mp s1).2 (List.pairwise_cons.mp s2).2
          (by rw [List.map_cons, List.nodup_cons] at nd; exact nd.2)
      rw [ht]

theorem entryLE_unfold {a b : Entry} (h : entryLE a b = true) :
    (a.isFile = true → b.isFile = true) ∧
      (a.isFile = b.isFile →
        charListLE (lowerData a.name) (lowerData b.name) = true) := by
  simp only [entryLE, entryKey, keyLE] at h
  cases hfa : a.isFile <;> cases hfb : b.isFile <;> simp_all

theorem keepEntry_dir_false {igD igF : List String} {n : String} {r : Bool}
    {dcs : List Entry} (hn : n ∈ igD) :
    keepEntry igD igF (.dir n r dcs) = false := by
  simp [keepEntry, Entry.isDir, Entry.isFile, Entry.name, hn]

theorem keepEntry_other_false (igD igF : List String) (n : String) :
    keepEntry igD igF (.other n) = false := by
  simp [keepEntry, Entry.isDir, Entry.isFile]

example :
    sortEntries [.file "b.txt", .dir "A" true [], .file "a.txt",
      .dir "B" true []] =
    [.dir "A" true [], .dir "B" true [], .file "a.txt", .file "b.txt"] := by
  rfl

example :
    generate_tree [] [] true
      [.file "README.md", .dir "src" true [.file "main.py"]] "" =
    ["├── 📂 src/", "│   └── 📄 main.py", "└── 📄 README.md"] := by
  have hs : sortEntries
      (([Entry.file "README.md", Entry.dir "src" true [Entry.file "main.py"]]).filter
        (keepEntry [] [])) =
      [Entry.dir "src" true [Entry.file "main.py"], Entry.file "README.md"] := by
    rfl
  have hs2 : sortEntries
      (([Entry.file "main.py"]).filter (keepEntry [] [])) =
      [Entry.file "main.py"] := by rfl
  simp only [generate_tree, if_true, hs, renderItems_dir, renderItems_file,
    renderItems_nil, hs2]
  rfl

/-- C1: an entry listed during the walk is kept iff (it is a directory whose
name is not in the ignore-dirs list) or (it is a file whose name is not in
the ignore-files list); the ignore lists used by `main` are the unions of
the built-in defaults and the user-supplied names (membership in the
appended list is membership in the union); consequently a directory whose
name is in the ignore-dirs list never appears in the output and none of its
descendants do: the rendered tree is identical to the tree with that whole
subtree removed. -/
theorem C1_keep_iff_and_ignored_dir_pruned (igD igF : List String)
    (e : Entry) (n : String) (args : Args) (hn : n ∈ igD) (readable r : Bool)
    (pre rootName : String) (l1 l2 dcs : List Entry) :
    (keepEntry igD igF e = true ↔
      (e.isDir = true ∧ e.name ∉ igD) ∨ (e.isFile = true ∧ e.name ∉ igF)) ∧
    (∀ s : String, s ∈ DEFAULT_IGNORE_DIRS ++ args.ignore_dir ↔
      s ∈ DEFAULT_IGNORE_DIRS ∨ s ∈ args.ignore_dir) ∧
    (main (.isDir rootName readable l1) args).written =
      some (args.output_file, "📁 " ++ rootName ++ "/\n\n" ++
        joinLines (generate_tree (DEFAULT_IGNORE_DIRS ++ args.ignore_dir)
          (DEFAULT_IGNORE_FILES ++ args.ignore_file) readable l1 "")) ∧
    generate_tree igD igF readable (l1 ++ Entry.dir n r dcs :: l2) pre =
      generate_tree igD igF readable (l1 ++ l2) pre := by
  refine ⟨?_, fun s => List.mem_append, rfl, ?_⟩
  · cases e <;>
      simp [keepEntry, Entry.isDir, Entry.isFile, Entry.name]
  · cases readable with
    | false => rfl
    | true =>
        simp only [generate_tree, if_true]
        rw [List.filter_append, List.filter_append, List.filter_cons,
          keepEntry_dir_false hn]
        simp

theorem C1_witness :
    ".git" ∈ [".git", "node_modules"] ∧
    ((keepEntry [".git", "node_modules"] [".gitignore"]
        (.file "a.txt") = true ↔
      ((Entry.file "a.txt").isDir = true ∧
        (Entry.file "a.txt").name ∉ [".git", "node_modules"]) ∨
      ((Entry.file "a.txt").isFile = true ∧
        (Entry.file "a.txt").name ∉ [".gitignore"])) ∧
    (∀ s : String, s ∈ DEFAULT_IGNORE_DIRS ++ (Args.mk "out.txt" [] []).ignore_dir ↔
      s ∈ DEFAULT_IGNORE_DIRS ∨ s ∈ (Args.mk "out.txt" [] []).ignore_dir) ∧
    (main (.isDir "proj" true [Entry.file "a.txt"])
        (Args.mk "out.txt" [] [])).written =
      some ((Args.mk "out.txt" [] []).output_file, "📁 " ++ "proj" ++ "/\n\n" ++
        joinLines (generate_tree
          (DEFAULT_IGNORE_DIRS ++ (Args.mk "out.txt" [] []).ignore_dir)
          (DEFAULT_IGNORE_FILES ++ (Args.mk "out.txt" [] []).ignore_file)
          true [Entry.file "a.txt"] "")) ∧
    generate_tree [".git", "node_modules"] [".gitignore"] true
        ([Entry.file "a.txt"] ++ Entry.dir ".git" true [Entry.file "s"] ::
          []) "" =
      generate_tree [".git", "node_modules"] [".gitignore"] true
        ([Entry.file "a.txt"] ++ []) "") :=
  ⟨by decide,
    C1_keep_iff_and_ignored_dir_pruned [".git", "node_modules"] [".gitignore"]
      (.file "a.txt") ".git" (Args.mk "out.txt" [] []) (by decide) true true
      "" "proj" [Entry.file "a.txt"] [] [Entry.file "s"]⟩

/-- C2: the kept entries of a listed directory are emitted in the order of
`sortEntries` applied to the filtered children, and that list is a
permutation of the filtered children that is sorted ascending by the key
(isFile, lowercased name): directories precede files, and entries of equal
kind are in case-insensitive name order. -/
theorem C2_sorted_order (igD igF : List String) (cs : List Entry)
    (pre : String) :
    generate_tree igD igF true cs pre =
      renderItems igD igF pre
        (sortEntries (cs.filter (keepEntry igD igF))) ∧
    (sortEntries (cs.filter (keepEntry igD igF))).Perm
      (cs.filter (keepEntry igD igF)) ∧
    (sortEntries (cs.filter (keepEntry igD igF))).Pairwise
      (fun a b => entryLE a b = true) ∧
    (sortEntries (cs.filter (keepEntry igD igF))).Pairwise
      (fun a b => (a.isFile = true → b.isFile = true) ∧
        (a.isFile = b.isFile →
          charListLE (lowerData a.name) (lowerData b.name) = true)) :=
  ⟨rfl, sortEntries_perm _, sorted_sortEntries _,
    (sorted_sortEntries _).imp fun h => entryLE_unfold h⟩

/-- C3: a kept entry's line is the accumulated pre-string, the connector
(`"└── "` when it is the last entry of the filtered, sorted sibling list,
`"├── "` otherwise), then the entry's name, with directories marked by a
trailing slash; a directory recurses with the pre-string extended by four
spaces when last and by `"│   "` otherwise, and a file line is followed
directly by its following siblings with no recursion. -/
theorem C3_connectors_and_recursion (igD igF : List String) (pre n : String)
    (r : Bool) (cs : List Entry) (e0 : Entry) (rs : List Entry) :
    renderItems igD igF pre (.dir n r cs :: e0 :: rs) =
      (pre ++ branch ++ "📂 " ++ n ++ "/") ::
        (generate_tree igD igF r cs (pre ++ contToken) ++
          renderItems igD igF pre (e0 :: rs)) ∧
    renderItems igD igF pre [.dir n r cs] =
      (pre ++ last_branch ++ "📂 " ++ n ++ "/") ::
        generate_tree igD igF r cs (pre ++ space) ∧
    renderItems igD igF pre (.file n :: e0 :: rs) =
      (pre ++ branch ++ "📄 " ++ n) :: renderItems igD igF pre (e0 :: rs) ∧
    renderItems igD igF pre [.file n] = [pre ++ last_branch ++ "📄 " ++ n] := by
  refine ⟨?_, ?_, ?_, ?_⟩
  · rw [renderItems_dir]
    cases r <;> simp [generate_tree]
  · rw [renderItems_dir]
    cases r <;> simp [generate_tree, renderItems_nil]
  · rw [renderItems_file]; simp
  · rw [renderItems_file]; simp [renderItems_nil]

/-- C4: when the start path does not exist or is not a directory, `main`
prints the error message and returns with no output file written. -/
theorem C4_invalid_root_no_output (p : String) (args : Args) :
    (main (.notDir p) args).written = none ∧
    (main (.notDir p) args).console =
      ["❌ Error: The path " ++ "'" ++ p ++ "'" ++
        " is not a valid directory."] :=
  ⟨rfl, rfl⟩

/-- C6: a non-root directory reached by the walk whose contents cannot be
listed produces exactly its own entry line followed by one permission-denied
marker line; nothing of its children is rendered (the output does not depend
on them), the remaining siblings are rendered unchanged, and a run on a
valid root always ends with the success confirmation message. -/
theorem C6_permission_denied_local (igD igF : List String) (pre n : String)
    (cs rest : List Entry) (rootName : String) (readable : Bool)
    (children : List Entry) (args : Args) :
    renderItems igD igF pre (.dir n false cs :: rest) =
      (pre ++ (if rest.isEmpty then last_branch else branch) ++ "📂 " ++ n ++
          "/") ::
        ((pre ++ (if rest.isEmpty then space else contToken)) ++ branch ++
          permDeniedText) ::
        renderItems igD igF pre rest ∧
    (main (.isDir rootName readable children) args).console =
      ["✅ Folder structure successfully exported to " ++ "'" ++
        args.output_file ++ "'"] := by
  constructor
  · rw [renderItems_dir]; simp
  · rfl

/-- C9: an entry that is neither a directory nor a file is never kept, for
any ignore lists, and its presence among a directory's children leaves the
rendered output unchanged. -/
theorem C9_other_entries_excluded (igD igF : List String) (n : String)
    (readable : Bool) (pre : String) (l1 l2 : List Entry) :
    keepEntry igD igF (.other n) = false ∧
    generate_tree igD igF readable (l1 ++ Entry.other n :: l2) pre =
      generate_tree igD igF readable (l1 ++ l2) pre := by
  refine ⟨keepEntry_other_false igD igF n, ?_⟩
  cases readable with
  | false => rfl
  | true =>
      simp only [generate_tree, if_true]
      rw [List.filter_append, List.filter_append, List.filter_cons,
        keepEntry_other_false]
      simp

/-- Number of non-ignored entries reached by the walk within the subtree of
a reached entry, the entry itself included: the walk lists a readable kept
directory and reaches exactly its kept children.  Spec-side count for the
line-count property. -/
def entryCount (igD igF : List String) : Entry → Nat
  | .file _ => 1
  | .other _ => 1
  | .dir _ false _ => 1
  | .dir _ true cs =>
      1 + ((cs.filter (keepEntry igD igF)).attach.map
        (fun x => entryCount igD igF x.1)).sum
termination_by e => sizeOf e
decreasing_by
  have hx := List.sizeOf_lt_of_mem x.2
  have hf := sizeOf_filter_le (keepEntry igD igF) cs
  simp only [Entry.dir.sizeOf_spec]
  omega

/-- Number of permission-denied nodes reached by the walk within the
subtree of a reached entry. -/
def deniedCount (igD igF : List String) : Entry → Nat
  | .file _ => 0
  | .other _ => 0
  | .dir _ false _ => 1
  | .dir _ true cs =>
      ((cs.filter (keepEntry igD igF)).attach.map
        (fun x => deniedCount igD igF x.1)).sum
termination_by e => sizeOf e
decreasing_by
  have hx := List.sizeOf_lt_of_mem x.2
  have hf := sizeOf_filter_le (keepEntry igD igF) cs
  simp only [Entry.dir.sizeOf_spec]
  omega

theorem entryCount_dir_true (igD igF : List String) (n : String)
    (cs : List Entry) :
    entryCount igD igF (.dir n true cs) =
      1 + ((cs.filter (keepEntry igD igF)).map (entryCount igD igF)).sum := by
  rw [entryCount]
  exact congrArg (1 + ·) (congrArg List.sum (List.attach_map_coe _ _))

theorem deniedCount_dir_true (igD igF : List String) (n : String)
    (cs : List Entry) :
    deniedCount igD igF (.dir n true cs) =
      ((cs.filter (keepEntry igD igF)).map (deniedCount igD igF)).sum := by
  rw [deniedCount]
  exact congrArg List.sum (List.attach_map_coe _ _)

theorem sum_map_sortEntries (f : Entry → Nat) (l : List Entry) :
    ((sortEntries l).map f).sum = (l.map f).sum :=
  ((sortEntries_perm l).map f).sum_eq

theorem renderItems_length (igD igF : List String) :
    ∀ (pre : String) (items : List Entry),
      (renderItems igD igF pre items).length =
        (items.map (entryCount igD igF)).sum +
          (items.map (deniedCount igD igF)).sum
  | _, [] => by simp [renderItems_nil]
  | pre, .file n :: rest => by
      rw [renderItems_file]
      simp only [List.length_cons, List.map_cons, List.sum_cons,
        renderItems_length igD igF pre rest, entryCount, deniedCount]
      omega
  | pre, .other n :: rest => by
      rw [renderItems_other]
      simp only [List.length_cons, List.map_cons, List.sum_cons,
        renderItems_length igD igF pre rest, entryCount, deniedCount]
      omega
  | pre, .dir n false cs :: rest => by
      rw [renderItems_dir]
      simp only [if_false, Bool.false_eq_true, List.length_cons,
        List.length_append, List.length_cons, List.length_nil,
        List.map_cons, List.sum_cons,
        renderItems_length igD igF pre rest]
      simp only [entryCount, deniedCount]
      omega
  | pre, .dir n true cs :: rest => by
      rw [renderItems_dir]
      simp only [if_true, List.length_cons, List.length_append,
        List.map_cons, List.sum_cons,
        renderItems_length igD igF pre rest,
        renderItems_length igD igF
          (pre ++ (if rest.isEmpty then space else contToken))
          (sortEntries (cs.filter (keepEntry igD igF))),
        sum_map_sortEntries, entryCount_dir_true, deniedCount_dir_true]
      omega
termination_by _ items => sizeOf items
decreasing_by
  all_goals first
    | apply sizeOf_sortFilter_lt
    | (simp only [List.cons.sizeOf_spec]; omega)

/-- C7: the tree body of a readable root has exactly one line per
non-ignored entry reached by the walk plus one marker line per
permission-denied node; an unreadable root produces exactly the single
marker line. -/
theorem C7_line_count (igD igF : List String) (cs : List Entry)
    (pre : String) :
    (generate_tree igD igF true cs pre).length =
      ((cs.filter (keepEntry igD igF)).map (entryCount igD igF)).sum +
        ((cs.filter (keepEntry igD igF)).map (deniedCount igD igF)).sum ∧
    (generate_tree igD igF false cs pre).length = 1 := by
  constructor
  · simp only [generate_tree, if_true]
    rw [renderItems_length igD igF pre
      (sortEntries (cs.filter (keepEntry igD igF)))]
    rw [sum_map_sortEntries, sum_map_sortEntries]
  · rfl

/-- C10: the permission-denied marker line always uses the branch connector
`"├── "`, even when the unreadable directory is the last of its siblings,
and it is an extra child line below the unreadable directory's own entry
line, so such a directory contributes exactly two lines. -/
theorem C10_marker_connector (igD igF : List String) (pre n : String)
    (cs rest : List Entry) :
    renderItems igD igF pre (.dir n false cs :: rest) =
      (pre ++ (if rest.isEmpty then last_branch else branch) ++ "📂 " ++ n ++
          "/") ::
        ((pre ++ (if rest.isEmpty then space else contToken)) ++ "├── " ++
          permDeniedText) ::
        renderItems igD igF pre rest ∧
    renderItems igD igF pre [.dir n false cs] =
      [pre ++ last_branch ++ "📂 " ++ n ++ "/",
        (pre ++ space) ++ "├── " ++ permDeniedText] := by
  constructor
  · rw [renderItems_dir]; simp [branch]
  · rw [renderItems_dir]; simp [branch, renderItems_nil]

/-- C5 counterexample: a start path that IS a directory but whose contents
cannot be read is not rejected: `Path.is_dir()` is true, so `main` opens and
writes the output file and reports success, contradicting the claim that no
output is produced for a non-readable root. -/
theorem C5_counterexample :
    (main (.isDir "r" false []) (Args.mk "folder_structure.txt" [] [])).written ≠
      none ∧
    (main (.isDir "r" false []) (Args.mk "folder_structure.txt" [] [])).console =
      ["✅ Folder structure successfully exported to " ++ "'" ++
        "folder_structure.txt" ++ "'"] := by
  refine ⟨?_, rfl⟩
  intro h
  simp [main] at h

/-- C5 (amended): when the start path does not exist or is not a directory,
`main` reports the error and produces no output file; but a start path that
is a directory whose contents cannot be read is accepted: the output file is
written, containing the root line and one permission-denied marker line, and
the success message is reported. -/
theorem C5_invalid_root_amended (p : String) (args : Args)
    (rootName : String) (cs : List Entry) :
    (main (.notDir p) args).written = none ∧
    (main (.notDir p) args).console =
      ["❌ Error: The path " ++ "'" ++ p ++ "'" ++
        " is not a valid directory."] ∧
    (main (.isDir rootName false cs) args).written =
      some (args.output_file,
        "📁 " ++ rootName ++ "/\n\n" ++
          joinLines ["" ++ branch ++ permDeniedText]) ∧
    (main (.isDir rootName false cs) args).console =
      ["✅ Folder structure successfully exported to " ++ "'" ++
        args.output_file ++ "'"] :=
  ⟨rfl, rfl, rfl, rfl⟩

/-! Machinery for the enumeration-order independence claim: `TreeEquiv`
relates two snapshots of the same filesystem tree whose directories list the
same entries, possibly in a different enumeration order. -/

mutual
/-- Same entry up to the enumeration order inside (sub)directories. -/
inductive TreeEquiv : Entry → Entry → Prop where
  | file (n : String) : TreeEquiv (.file n) (.file n)
  | other (n : String) : TreeEquiv (.other n) (.other n)
  | dir (n : String) (r : Bool) (cs1 mid cs2 : List Entry) :
      cs1.Perm mid → ForestEquiv mid cs2 →
      TreeEquiv (.dir n r cs1) (.dir n r cs2)

/-- Pointwise `TreeEquiv` on two equally long lists of entries. -/
inductive ForestEquiv : List Entry → List Entry → Prop where
  | nil : ForestEquiv [] []
  | cons {a b : Entry} {l1 l2 : List Entry} :
      TreeEquiv a b → ForestEquiv l1 l2 → ForestEquiv (a :: l1) (b :: l2)
end

mutual
theorem treeEquiv_refl : ∀ e : Entry, TreeEquiv e e
  | .file n => .file n
  | .other n => .other n
  | .dir n r cs => .dir n r cs cs cs (List.Perm.refl cs) (forestEquiv_refl cs)

theorem forestEquiv_refl : ∀ l : List Entry, ForestEquiv l l
  | [] => .nil
  | e :: l => .cons (treeEquiv_refl e) (forestEquiv_refl l)
end

theorem TreeEquiv.name_eq {a b : Entry} (h : TreeEquiv a b) :
    a.name = b.name := by
  cases h <;> rfl

theorem TreeEquiv.key_eq {a b : Entry} (h : TreeEquiv a b) :
    entryKey a = entryKey b := by
  cases h <;> rfl

theorem TreeEquiv.keep_eq (igD igF : List String) {a b : Entry}
    (h : TreeEquiv a b) : keepEntry igD igF a = keepEntry igD igF b := by
  cases h <;> rfl

theorem ForestEquiv.isEmpty_eq {l1 l2 : List Entry} (h : ForestEquiv l1 l2) :
    l1.isEmpty = l2.isEmpty := by
  cases h <;> rfl

theorem forestEquiv_filter (igD igF : List String) :
    ∀ {l1 l2 : List Entry}, ForestEquiv l1 l2 →
      ForestEquiv (l1.filter (keepEntry igD igF))
        (l2.filter (keepEntry igD igF))
  | _, _, .nil => .nil
  | _, _, .cons ha hl => by
      rename_i a b t1 t2
      rw [List.filter_cons, List.filter_cons, ← ha.keep_eq igD igF]
      split
      · exact .cons ha (forestEquiv_filter igD igF hl)
      · exact forestEquiv_filter igD igF hl

theorem forestEquiv_insertSorted {e1 e2 : Entry} (he : TreeEquiv e1 e2) :
    ∀ {l1 l2 : List Entry}, ForestEquiv l1 l2 →
      ForestEquiv (insertSorted e1 l1) (insertSorted e2 l2)
  | _, _, .nil => .cons he .nil
  | _, _, .cons ha hl => by
      rename_i a b t1 t2
      simp only [insertSorted]
      have hcond : entryLT a e1 = entryLT b e2 := by
        simp only [entryLT, ha.key_eq, he.key_eq]
      rw [← hcond]
      split
      · exact .cons ha (forestEquiv_insertSorted he hl)
      · exact .cons he (.cons ha hl)

theorem forestEquiv_sortEntries :
    ∀ {l1 l2 : List Entry}, ForestEquiv l1 l2 →
      ForestEquiv (sortEntries l1) (sortEntries l2)
  | _, _, .nil => .nil
  | _, _, .cons ha hl => forestEquiv_insertSorted ha (forestEquiv_sortEntries hl)

theorem perm_sizeOf_eq {l1 l2 : List Entry} (h : l1.Perm l2) :
    sizeOf l1 = sizeOf l2 := by
  induction h with
  | nil => rfl
  | cons x _ ih => simp only [List.cons.sizeOf_spec, ih]
  | swap x y l => simp only [List.cons.sizeOf_spec]; omega
  | trans _ _ ih1 ih2 => exact ih1.trans ih2

/-- No two kept siblings anywhere in the subtree share a sort key.  Under
this condition the enumeration order cannot influence the output. -/
def keysDistinct (igD igF : List String) : Entry → Bool
  | .file _ => true
  | .other _ => true
  | .dir _ _ cs =>
      decide (((cs.filter (keepEntry igD igF)).map entryKey).Nodup) &&
        (cs.filter (keepEntry igD igF)).attach.all
          (fun x => keysDistinct igD igF x.1)
termination_by e => sizeOf e
decreasing_by
  have hx := List.sizeOf_lt_of_mem x.2
  have hf := sizeOf_filter_le (keepEntry igD igF) cs
  simp only [Entry.dir.sizeOf_spec]
  omega

theorem keysDistinct_dir {igD igF : List String} {n : String} {r : Bool}
    {cs : List Entry} (h : keysDistinct igD igF (.dir n r cs) = true) :
    ((cs.filter (keepEntry igD igF)).map entryKey).Nodup ∧
      ∀ x ∈ cs.filter (keepEntry igD igF), keysDistinct igD igF x = true := by
  rw [keysDistinct] at h
  simp only [Bool.and_eq_true, decide_eq_true_eq, List.all_eq_true,
    List.mem_attach, true_implies, Subtype.forall] at h
  exact h

/-- Core of the order-independence result: rendering a sibling list depends
only on the underlying tree when all kept sibling keys are distinct
throughout. -/
theorem renderItems_eq_of_forestEquiv (igD igF : List String) :
    ∀ (pre : String) (l1 l2 : List Entry), ForestEquiv l1 l2 →
      (∀ e ∈ l1, keysDistinct igD igF e = true) →
      renderItems igD igF pre l1 = renderItems igD igF pre l2
  | _, [], l2, h, _ => by cases h; rfl
  | pre, .file n :: t1, l2, h, hk => by
      cases h with
      | cons ha hl =>
        have hrest := renderItems_eq_of_forestEquiv igD igF pre t1 _ hl
          (fun e he => hk e (List.mem_cons_of_mem _ he))
        cases ha with
        | file => rw [renderItems_file, renderItems_file, hrest, hl.isEmpty_eq]
  | pre, .other n :: t1, l2, h, hk => by
      cases h with
      | cons ha hl =>
        have hrest := renderItems_eq_of_forestEquiv igD igF pre t1 _ hl
          (fun e he => hk e (List.mem_cons_of_mem _ he))
        cases ha with
        | other =>
            rw [renderItems_other, renderItems_other, hrest, hl.isEmpty_eq]
  | pre, .dir n r cs1 :: t1, l2, h, hk => by
      cases h with
      | cons ha hl =>
        have hrest := renderItems_eq_of_forestEquiv igD igF pre t1 _ hl
          (fun e he => hk e (List.mem_cons_of_mem _ he))
        have hemp : t1.isEmpty = _ := hl.isEmpty_eq
        cases ha with
        | dir _ _ _ mid cs2 hperm hfe =>
            rw [renderItems_dir, renderItems_dir, hrest, hemp]
            cases r with
            | false => rfl
            | true =>
                simp only [if_true]
                have hknode := keysDistinct_dir (hk _ (List.mem_cons_self _ _))
                have hpermf : (cs1.filter (keepEntry igD igF)).Perm
                    (mid.filter (keepEntry igD igF)) := hperm.filter _
                have hpermS : (sortEntries
                    (cs1.filter (keepEntry igD igF))).Perm
                    (sortEntries (mid.filter (keepEntry igD igF))) :=
                  ((sortEntries_perm _).trans hpermf).trans
                    (sortEntries_perm _).symm
                have hnodup : ((sortEntries
                    (cs1.filter (keepEntry igD igF))).map entryKey).Nodup :=
                  (((sortEntries_perm _).map entryKey).nodup_iff).mpr hknode.1
                have hstep : sortEntries (cs1.filter (keepEntry igD igF)) =
                    sortEntries (mid.filter (keepEntry igD igF)) :=
                  eq_of_perm_of_sorted_of_nodupKeys _ _ hpermS
                    (sorted_sortEntries _) (sorted_sortEntries _) hnodup
                rw [hstep]
                have hfe2 : ForestEquiv
                    (sortEntries (mid.filter (keepEntry igD igF)))
                    (sortEntries (cs2.filter (keepEntry igD igF))) :=
                  forestEquiv_sortEntries (forestEquiv_filter igD igF hfe)
                have hkmid : ∀ e ∈ sortEntries
                    (mid.filter (keepEntry igD igF)),
                    keysDistinct igD igF e = true := by
                  intro e he
                  exact hknode.2 e (hpermf.mem_iff.mpr
                    ((sortEntries_perm _).mem_iff.mp he))
                rw [renderItems_eq_of_forestEquiv igD igF _ _ _ hfe2 hkmid]
termination_by _ l1 _ _ _ => sizeOf l1
decreasing_by
  all_goals first
    | (simp only [List.cons.sizeOf_spec]; omega)
    | (have h1 := sizeOf_filter_le (keepEntry igD igF) mid
       have h2 : sizeOf mid = sizeOf cs1 := (perm_sizeOf_eq hperm).symm
       simp only [sizeOf_sortEntries, List.cons.sizeOf_spec,
         Entry.dir.sizeOf_spec]
       omega)

theorem keysDistinct_file (igD igF : List String) (n : String) :
    keysDistinct igD igF (.file n) = true := by
  rw [keysDistinct]

theorem generate_tree_eq_of_treeEquiv (igD igF : List String) {n : String}
    {r : Bool} {cs1 cs2 : List Entry}
    (h : TreeEquiv (.dir n r cs1) (.dir n r cs2))
    (hk : keysDistinct igD igF (.dir n r cs1) = true) (pre : String) :
    generate_tree igD igF r cs1 pre = generate_tree igD igF r cs2 pre := by
  cases h with
  | dir _ _ _ mid _ hperm hfe =>
    cases r with
    | false => rfl
    | true =>
      simp only [generate_tree, if_true]
      have hknode := keysDistinct_dir hk
      have hpermf : (cs1.filter (keepEntry igD igF)).Perm
          (mid.filter (keepEntry igD igF)) := hperm.filter _
      have hpermS : (sortEntries (cs1.filter (keepEntry igD igF))).Perm
          (sortEntries (mid.filter (keepEntry igD igF))) :=
        ((sortEntries_perm _).trans hpermf).trans (sortEntries_perm _).symm
      have hnodup : ((sortEntries (cs1.filter (keepEntry igD igF))).map
          entryKey).Nodup :=
        (((sortEntries_perm _).map entryKey).nodup_iff).mpr hknode.1
      have hstep : sortEntries (cs1.filter (keepEntry igD igF)) =
          sortEntries (mid.filter (keepEntry igD igF)) :=
        eq_of_perm_of_sorted_of_nodupKeys _ _ hpermS (sorted_sortEntries _)
          (sorted_sortEntries _) hnodup
      rw [hstep]
      exact renderItems_eq_of_forestEquiv igD igF _ _ _
        (forestEquiv_sortEntries (forestEquiv_filter igD igF hfe))
        (fun e he => hknode.2 e
          (hpermf.mem_iff.mpr ((sortEntries_perm _).mem_iff.mp he)))

/-- C8 counterexample: the output is NOT independent of the order in which
the filesystem enumerates directory entries.  Two snapshots of the same
directory (`TreeEquiv` holds) containing the two files `A.txt` and `a.txt`,
whose sort keys coincide, are rendered in enumeration order by the stable
sort, so the two runs write different output files. -/
theorem C8_counterexample :
    TreeEquiv (.dir "r" true [.file "A.txt", .file "a.txt"])
      (.dir "r" true [.file "a.txt", .file "A.txt"]) ∧
    main (.isDir "r" true [.file "A.txt", .file "a.txt"])
        (Args.mk "folder_structure.txt" [] []) ≠
      main (.isDir "r" true [.file "a.txt", .file "A.txt"])
        (Args.mk "folder_structure.txt" [] []) := by
  constructor
  · exact .dir "r" true _ _ _
      (List.Perm.swap (Entry.file "a.txt") (Entry.file "A.txt") [])
      (forestEquiv_refl _)
  · have hs1 : sortEntries (([Entry.file "A.txt", Entry.file "a.txt"]).filter
        (keepEntry (DEFAULT_IGNORE_DIRS ++ []) (DEFAULT_IGNORE_FILES ++ []))) =
        [Entry.file "A.txt", Entry.file "a.txt"] := by rfl
    have hs2 : sortEntries (([Entry.file "a.txt", Entry.file "A.txt"]).filter
        (keepEntry (DEFAULT_IGNORE_DIRS ++ []) (DEFAULT_IGNORE_FILES ++ []))) =
        [Entry.file "a.txt", Entry.file "A.txt"] := by rfl
    have e1 : generate_tree (DEFAULT_IGNORE_DIRS ++ [])
        (DEFAULT_IGNORE_FILES ++ []) true
        [Entry.file "A.txt", Entry.file "a.txt"] "" =
        ["├── 📄 A.txt", "└── 📄 a.txt"] := by
      simp only [generate_tree, if_true, hs1, renderItems_file,
        renderItems_nil]
      decide
    have e2 : generate_tree (DEFAULT_IGNORE_DIRS ++ [])
        (DEFAULT_IGNORE_FILES ++ []) true
        [Entry.file "a.txt", Entry.file "A.txt"] "" =
        ["├── 📄 a.txt", "└── 📄 A.txt"] := by
      simp only [generate_tree, if_true, hs2, renderItems_file,
        renderItems_nil]
      decide
    intro hEq
    have hw : (main (.isDir "r" true [Entry.file "A.txt", Entry.file "a.txt"])
        (Args.mk "folder_structure.txt" [] [])).written =
        (main (.isDir "r" true [Entry.file "a.txt", Entry.file "A.txt"])
          (Args.mk "folder_structure.txt" [] [])).written := by rw [hEq]
    simp only [main, e1, e2] at hw
    exact absurd hw (by decide)

/-- C8 (amended): the output of a run is a deterministic function of the
filesystem tree and the arguments, independent of the enumeration order of
directory entries, PROVIDED that no directory of the tree contains two kept
entries of the same kind whose lowercased names coincide; the
counterexample shows the proviso is necessary. -/
theorem C8_deterministic_amended (rootName : String) (r : Bool)
    (cs1 cs2 : List Entry) (args : Args)
    (h : TreeEquiv (.dir rootName r cs1) (.dir rootName r cs2))
    (hk : keysDistinct (DEFAULT_IGNORE_DIRS ++ args.ignore_dir)
      (DEFAULT_IGNORE_FILES ++ args.ignore_file)
      (.dir rootName r cs1) = true) :
    main (.isDir rootName r cs1) args = main (.isDir rootName r cs2) args := by
  have hgen := generate_tree_eq_of_treeEquiv
    (DEFAULT_IGNORE_DIRS ++ args.ignore_dir)
    (DEFAULT_IGNORE_FILES ++ args.ignore_file) h hk ""
  simp only [main, hgen]

theorem C8_witness :
    TreeEquiv (.dir "root" true [.file "B.txt", .file "a.txt"])
      (.dir "root" true [.file "a.txt", .file "B.txt"]) ∧
    keysDistinct (DEFAULT_IGNORE_DIRS ++ []) (DEFAULT_IGNORE_FILES ++ [])
      (.dir "root" true [.file "B.txt", .file "a.txt"]) = true ∧
    main (.isDir "root" true [.file "B.txt", .file "a.txt"])
        (Args.mk "folder_structure.txt" [] []) =
      main (.isDir "root" true [.file "a.txt", .file "B.txt"])
        (Args.mk "folder_structure.txt" [] []) := by
  have h : TreeEquiv (.dir "root" true [.file "B.txt", .file "a.txt"])
      (.dir "root" true [.file "a.txt", .file "B.txt"]) :=
    .dir "root" true _ _ _
      (List.Perm.swap (Entry.file "a.txt") (Entry.file "B.txt") [])
      (forestEquiv_refl _)
  have hk : keysDistinct (DEFAULT_IGNORE_DIRS ++ []) (DEFAULT_IGNORE_FILES ++ [])
      (.dir "root" true [.file "B.txt", .file "a.txt"]) = true := by
    rw [keysDistinct]
    simp [keysDistinct_file, List.attach_cons]
    decide
  exact ⟨h, hk, C8_deterministic_amended "root" true
    [.file "B.txt", .file "a.txt"] [.file "a.txt", .file "B.txt"]
    (Args.mk "folder_structure.txt" [] []) h hk⟩

end ExportFolderStructure
